import Mathlib

/-!
Verification of `src/database/scripts/generate-pgbouncer-passwords.py`.

The script derives SCRAM-SHA-256 credential records from plaintext
passwords: PBKDF2-HMAC-SHA256 key stretching, two HMAC-SHA-256
derivations, a plain SHA-256 digest, base64 encoding and a fixed string
format.  The whole pipeline is embedded here executably over `Nat` byte
lists (a byte is a `Nat < 256`; 32-bit words are `Nat` reduced mod 2^32
wherever overflow can occur).  Randomness (`secrets.token_bytes`) is
modelled as an explicit entropy stream `Nat → Nat` supplied by the
caller; the Python `ValueError` that `hashlib.pbkdf2_hmac` raises for a
non-positive iteration count is modelled by an `Option` result.
-/

/-- 2^32, the word modulus of SHA-256. -/
def M32 : Nat := 4294967296

/-- Right rotation of a 32-bit word (exact for `x < 2^32`). -/
def rotr32 (n x : Nat) : Nat := x / 2 ^ n + x % 2 ^ n * 2 ^ (32 - n)

/-- Bitwise complement within 32 bits. -/
def not32 (x : Nat) : Nat := x ^^^ 4294967295

/-- SHA-256 `Ch` function. -/
def ch32 (e f g : Nat) : Nat := (e &&& f) ^^^ (not32 e &&& g)

/-- SHA-256 `Maj` function. -/
def maj32 (a b c : Nat) : Nat := (a &&& b) ^^^ (a &&& c) ^^^ (b &&& c)

/-- SHA-256 big Sigma0. -/
def bsig0 (x : Nat) : Nat := rotr32 2 x ^^^ rotr32 13 x ^^^ rotr32 22 x

/-- SHA-256 big Sigma1. -/
def bsig1 (x : Nat) : Nat := rotr32 6 x ^^^ rotr32 11 x ^^^ rotr32 25 x

/-- SHA-256 small sigma0. -/
def ssig0 (x : Nat) : Nat := rotr32 7 x ^^^ rotr32 18 x ^^^ x / 8

/-- SHA-256 small sigma1. -/
def ssig1 (x : Nat) : Nat := rotr32 17 x ^^^ rotr32 19 x ^^^ x / 1024

/-- The 64 SHA-256 round constants. -/
def K64 : List Nat :=
  [1116352408, 1899447441, 3049323471, 3921009573,
   961987163, 1508970993, 2453635748, 2870763221,
   3624381080, 310598401, 607225278, 1426881987,
   1925078388, 2162078206, 2614888103, 3248222580,
   3835390401, 4022224774, 264347078, 604807628,
   770255983, 1249150122, 1555081692, 1996064986,
   2554220882, 2821834349, 2952996808, 3210313671,
   3336571891, 3584528711, 113926993, 338241895,
   666307205, 773529912, 1294757372, 1396182291,
   1695183700, 1986661051, 2177026350, 2456956037,
   2730485921, 2820302411, 3259730800, 3345764771,
   3516065817, 3600352804, 4094571909, 275423344,
   430227734, 506948616, 659060556, 883997877,
   958139571, 1322822218, 1537002063, 1747873779,
   1955562222, 2024104815, 2227730452, 2361852424,
   2428436474, 2756734187, 3204031479, 3329325298]

/-- The eight 32-bit words of a SHA-256 hash state. -/
structure HashState where
  a : Nat
  b : Nat
  c : Nat
  d : Nat
  e : Nat
  f : Nat
  g : Nat
  h : Nat
deriving Repr, DecidableEq

/-- SHA-256 initial hash value. -/
def initState : HashState :=
  ⟨1779033703, 3144134277, 1013904242, 2773480762,
   1359893119, 2600822924, 528734635, 1541459225⟩

/-- The sixteen big-endian 32-bit message words of one 64-byte chunk. -/
def chunkWords (chunk : List Nat) : List Nat :=
  (List.range 16).map fun i =>
    chunk.getD (4 * i) 0 * 16777216 + chunk.getD (4 * i + 1) 0 * 65536 +
    chunk.getD (4 * i + 2) 0 * 256 + chunk.getD (4 * i + 3) 0

/-- The SHA-256 message schedule over the sixteen chunk words. -/
def msgSched (ws : List Nat) (t : Nat) : Nat :=
  if _h : t < 16 then ws.getD t 0
  else
    (ssig1 (msgSched ws (t - 2)) + msgSched ws (t - 7) +
     ssig0 (msgSched ws (t - 15)) + msgSched ws (t - 16)) % M32
termination_by t
decreasing_by all_goals omega

/-- One SHA-256 compression round with schedule word `w` and constant `k`. -/
def roundStep (w k : Nat) (s : HashState) : HashState :=
  let t1 := (s.h + bsig1 s.e + ch32 s.e s.f s.g + k + w) % M32
  let t2 := (bsig0 s.a + maj32 s.a s.b s.c) % M32
  ⟨(t1 + t2) % M32, s.a, s.b, s.c, (s.d + t1) % M32, s.e, s.f, s.g⟩

/-- Add two hash states word-wise mod 2^32. -/
def addStates (x y : HashState) : HashState :=
  ⟨(x.a + y.a) % M32, (x.b + y.b) % M32, (x.c + y.c) % M32, (x.d + y.d) % M32,
   (x.e + y.e) % M32, (x.f + y.f) % M32, (x.g + y.g) % M32, (x.h + y.h) % M32⟩

/-- Process one 64-byte chunk: 64 rounds, then add to the incoming state. -/
def compressChunk (st : HashState) (chunk : List Nat) : HashState :=
  let ws := chunkWords chunk
  addStates st
    ((List.range 64).foldl (fun s t => roundStep (msgSched ws t) (K64.getD t 0) s) st)

/-- SHA-256 padding: `0x80`, zeros to 56 mod 64, then the 64-bit big-endian
bit length. -/
def padMsg (msg : List Nat) : List Nat :=
  let len := msg.length
  let bitLen := 8 * len % 18446744073709551616
  msg ++ [128] ++ List.replicate ((119 - len % 64) % 64) 0 ++
    [bitLen / 2 ^ 56 % 256, bitLen / 2 ^ 48 % 256, bitLen / 2 ^ 40 % 256,
     bitLen / 2 ^ 32 % 256, bitLen / 2 ^ 24 % 256, bitLen / 2 ^ 16 % 256,
     bitLen / 2 ^ 8 % 256, bitLen % 256]

/-- Split a byte list into 64-byte chunks. -/
def chunks64 (l : List Nat) : List (List Nat) :=
  if h : l = [] then [] else l.take 64 :: chunks64 (l.drop 64)
termination_by l.length
decreasing_by
  have hl : 0 < l.length := List.length_pos.mpr h
  simp only [List.length_drop]
  omega

/-- The four big-endian bytes of a 32-bit word. -/
def wordBytes (w : Nat) : List Nat :=
  [w / 16777216 % 256, w / 65536 % 256, w / 256 % 256, w % 256]

/-- The 32 digest bytes of a final hash state. -/
def digestBytes (st : HashState) : List Nat :=
  wordBytes st.a ++ wordBytes st.b ++ wordBytes st.c ++ wordBytes st.d ++
  wordBytes st.e ++ wordBytes st.f ++ wordBytes st.g ++ wordBytes st.h

/-- SHA-256 of a byte list (`hashlib.sha256(...).digest()`). -/
def sha256 (msg : List Nat) : List Nat :=
  digestBytes ((chunks64 (padMsg msg)).foldl compressChunk initState)

/-- HMAC-SHA-256 (`hmac.new(key, msg, hashlib.sha256).digest()`): the key is
hashed if longer than the 64-byte block, zero-padded to the block size, and
xored with the inner/outer pads. -/
def hmac_sha256 (key msg : List Nat) : List Nat :=
  let k0 := if 64 < key.length then sha256 key else key
  let kp := k0 ++ List.replicate (64 - k0.length) 0
  sha256 ((kp.map fun b => b ^^^ 92) ++ sha256 ((kp.map fun b => b ^^^ 54) ++ msg))

/-- Byte-wise xor of two equal-length byte lists. -/
def xorBytes (x y : List Nat) : List Nat := List.zipWith Nat.xor x y

/-- The iterated-xor chain of PBKDF2 block 1: `n` further rounds after the
first, `u` the last `U_j`, `acc` the xor accumulated so far. -/
def pbkdf2Go (password : List Nat) : Nat → List Nat → List Nat → List Nat
  | 0, _, acc => acc
  | n + 1, u, acc =>
    let u' := hmac_sha256 password u
    pbkdf2Go password n u' (xorBytes acc u')

/-- `hashlib.pbkdf2_hmac('sha256', password, salt, iterations)` with the
default `dklen` of 32 (= the SHA-256 digest size, so exactly one block).
Python raises `ValueError` when `iterations < 1`, modelled as `none`. -/
def pbkdf2_hmac (password salt : List Nat) (iterations : Nat) : Option (List Nat) :=
  if iterations = 0 then none
  else
    let u1 := hmac_sha256 password (salt ++ [0, 0, 0, 1])
    some (pbkdf2Go password (iterations - 1) u1 u1)

/-- The standard base64 alphabet, table position = 6-bit value. -/
def b64Table : List Char :=
  "ABCDEFGHIJKLMNOPQRSTUVWXYZabcdefghijklmnopqrstuvwxyz0123456789+/".toList

/-- The base64 character of a 6-bit value. -/
def b64Char (i : Nat) : Char := b64Table.getD i 'A'

/-- `base64.b64encode` (standard alphabet, padded) over a byte list. -/
def b64encode : List Nat → List Char
  | [] => []
  | [b1] => [b64Char (b1 / 4), b64Char (b1 % 4 * 16), '=', '=']
  | [b1, b2] =>
    [b64Char (b1 / 4), b64Char (b1 % 4 * 16 + b2 / 16), b64Char (b2 % 16 * 4), '=']
  | b1 :: b2 :: b3 :: rest =>
    b64Char (b1 / 4) :: b64Char (b1 % 4 * 16 + b2 / 16) ::
    b64Char (b2 % 16 * 4 + b3 / 64) :: b64Char (b3 % 64) :: b64encode rest

/-- The 6-bit value of a base64 character (0 when not in the alphabet). -/
def b64Val (c : Char) : Nat := (b64Table.indexOf c : Nat)

/-- Standard base64 decoding of a padded encoding, four characters at a
time. -/
def b64decode : List Char → List Nat
  | c1 :: c2 :: c3 :: c4 :: rest =>
    if c3 = '=' then [b64Val c1 * 4 + b64Val c2 / 16]
    else if c4 = '=' then
      [b64Val c1 * 4 + b64Val c2 / 16, b64Val c2 % 16 * 16 + b64Val c3 / 4]
    else
      (b64Val c1 * 4 + b64Val c2 / 16) :: (b64Val c2 % 16 * 16 + b64Val c3 / 4) ::
      (b64Val c3 % 4 * 64 + b64Val c4) :: b64decode rest
  | _ => []

/-- UTF-8 encoding of one Unicode scalar value (`str.encode('utf-8')`,
per character). -/
def utf8Char (c : Char) : List Nat :=
  let n := c.toNat
  if n < 128 then [n]
  else if n < 2048 then [192 + n / 64, 128 + n % 64]
  else if n < 65536 then [224 + n / 4096, 128 + n / 64 % 64, 128 + n % 64]
  else [240 + n / 262144, 128 + n / 4096 % 64, 128 + n / 64 % 64, 128 + n % 64]

/-- `password.encode('utf-8')` over a text as its character list. -/
def utf8Encode (s : List Char) : List Nat := s.foldr (fun c acc => utf8Char c ++ acc) []

/-- The ASCII bytes of a pure-ASCII literal (Python `b'...'`). -/
def asciiBytes (s : String) : List Nat := s.toList.map Char.toNat

/-- `secrets.token_bytes n` drawing from an explicit entropy stream: the
first `n` stream values, each reduced to a byte. -/
def token_bytes (n : Nat) (rng : Nat → Nat) : List Nat :=
  (List.range n).map fun i => rng i % 256

/-- The decimal digit characters of a natural number (Python `str(int)`
rendering inside the f-string). -/
def natDecimalGo : Nat → List Char → List Char
  | 0, acc => acc
  | n + 1, acc => natDecimalGo ((n + 1) / 10) (Char.ofNat (48 + (n + 1) % 10) :: acc)
decreasing_by exact Nat.div_lt_self (Nat.succ_pos n) (by omega)

/-- Decimal rendering of a natural number. -/
def natDecimal (n : Nat) : List Char :=
  if n = 0 then ['0'] else natDecimalGo n []

/-- The output string skeleton
`SCRAM-SHA-256$<iterations>:<salt>$<storedkey>:<serverkey>`. -/
def scramFormat (iterations : Nat) (s1 s2 s3 : List Char) : List Char :=
  "SCRAM-SHA-256$".toList ++ natDecimal iterations ++ [':'] ++ s1 ++ ['$'] ++
    s2 ++ [':'] ++ s3

/-- `generate_scram_sha256_hash(password, salt, iterations)`.  The password
is the character list of the Python `str`; a missing salt argument is
`none`, in which case 16 bytes are drawn from the entropy stream `rng`
(the model of `secrets.token_bytes(16)`); the result is `none` exactly
when `hashlib.pbkdf2_hmac` would raise (`iterations < 1`). -/
def generate_scram_sha256_hash (password : List Char) (salt : Option (List Nat))
    (iterations : Nat) (rng : Nat → Nat) : Option (List Char) :=
  let saltBytes := match salt with
    | none => token_bytes 16 rng
    | some s => s
  let password_bytes := utf8Encode password
  match pbkdf2_hmac password_bytes saltBytes iterations with
  | none => none
  | some salted_password =>
    let client_key := hmac_sha256 salted_password (asciiBytes ("Client Key"))
    let stored_key := sha256 client_key
    let server_key := hmac_sha256 salted_password (asciiBytes ("Server Key"))
    some (scramFormat iterations (b64encode saltBytes) (b64encode stored_key)
      (b64encode server_key))

/-- The hardcoded user table of `main`. -/
def users : List (String × String) :=
  [("app_readwrite", "secure_app_password_2024"),
   ("app_readonly", "secure_readonly_password_2024"),
   ("pgbouncer_admin", "secure_pgbouncer_admin_2024"),
   ("pgbouncer_monitor", "secure_pgbouncer_monitor_2024")]

/-- One credential line of `main`:
`print(f'"{username}" "{hash_value}"')` with
`hash_value = generate_scram_sha256_hash(password)` (salt omitted,
iterations left at the default 4096). -/
def credLine (username password : String) (rng : Nat → Nat) : Option (List Char) :=
  (generate_scram_sha256_hash password.toList none 4096 rng).map fun hv =>
    ['\"'] ++ username.toList ++ ['\"', ' ', '\"'] ++ hv ++ ['\"']

/-- The credential lines printed by `main`, one per user-table entry, in
table order; the salt of the k-th call is drawn from the stream
`draws k`. -/
def mainCredLines (draws : Nat → Nat → Nat) : List (Option (List Char)) :=
  users.enum.map fun kup => credLine kup.2.1 kup.2.2 (draws kup.1)

/-! ## Derived views of the pipeline, used to state the claims -/

/-- The salt actually used by `generate_scram_sha256_hash`: the supplied one,
or 16 bytes drawn from the entropy stream. -/
def saltBytesOf (salt : Option (List Nat)) (rng : Nat → Nat) : List Nat :=
  match salt with
  | none => token_bytes 16 rng
  | some s => s

/-- The successful value of `pbkdf2_hmac` (the 32-byte salted password). -/
def saltedPassword (password salt : List Nat) (iterations : Nat) : List Nat :=
  let u1 := hmac_sha256 password (salt ++ [0, 0, 0, 1])
  pbkdf2Go password (iterations - 1) u1 u1

/-- The stored key of a derivation: SHA-256 of the client key. -/
def storedKeyOf (password : List Char) (salt : Option (List Nat)) (iterations : Nat)
    (rng : Nat → Nat) : List Nat :=
  sha256 (hmac_sha256 (saltedPassword (utf8Encode password) (saltBytesOf salt rng) iterations)
    (asciiBytes ("Client Key")))

/-- The server key of a derivation. -/
def serverKeyOf (password : List Char) (salt : Option (List Nat)) (iterations : Nat)
    (rng : Nat → Nat) : List Nat :=
  hmac_sha256 (saltedPassword (utf8Encode password) (saltBytesOf salt rng) iterations)
    (asciiBytes ("Server Key"))

/-- Membership test in the base64 alphabet. -/
def isB64Char (c : Char) : Bool := decide (c ∈ b64Table)

/-- A well-formed padded base64 string: groups of four alphabet characters,
with `=` padding allowed only in the final group. -/
def validB64 : List Char → Bool
  | [] => true
  | c1 :: c2 :: c3 :: c4 :: rest =>
    isB64Char c1 && isB64Char c2 &&
    ((validB64 rest && isB64Char c3 && isB64Char c4) ||
     (rest.isEmpty && ((isB64Char c3 && c4 == '=') || (c3 == '=' && c4 == '='))))
  | _ => false

/-- The exact output shape demanded of the credential string:
`SCRAM-SHA-256$<digits>:<base64>$<base64>:<base64>` with nothing else. -/
def wellFormedScram (out : List Char) : Prop :=
  ∃ d s1 s2 s3, out = "SCRAM-SHA-256$".toList ++ d ++ [':'] ++ s1 ++ ['$'] ++
      s2 ++ [':'] ++ s3 ∧
    d ≠ [] ∧ (∀ c ∈ d, c.isDigit = true) ∧
    validB64 s1 = true ∧ validB64 s2 = true ∧ validB64 s3 = true

/-! ## Size and range facts about the primitives -/

theorem wordBytes_length (w : Nat) : (wordBytes w).length = 4 := rfl

theorem wordBytes_lt (w : Nat) : ∀ b ∈ wordBytes w, b < 256 := by
  intro b hb
  simp only [wordBytes, List.mem_cons, List.not_mem_nil, or_false] at hb
  rcases hb with rfl | rfl | rfl | rfl <;> exact Nat.mod_lt _ (by norm_num)

theorem digestBytes_length (st : HashState) : (digestBytes st).length = 32 := by
  simp [digestBytes, wordBytes]

theorem digestBytes_lt (st : HashState) : ∀ b ∈ digestBytes st, b < 256 := by
  intro b hb
  simp only [digestBytes, List.mem_append] at hb
  rcases hb with ((((((h | h) | h) | h) | h) | h) | h) | h <;> exact wordBytes_lt _ _ h

theorem sha256_length (msg : List Nat) : (sha256 msg).length = 32 :=
  digestBytes_length _

theorem sha256_lt (msg : List Nat) : ∀ b ∈ sha256 msg, b < 256 :=
  digestBytes_lt _

theorem hmac_sha256_length (key msg : List Nat) : (hmac_sha256 key msg).length = 32 :=
  sha256_length _

theorem hmac_sha256_lt (key msg : List Nat) : ∀ b ∈ hmac_sha256 key msg, b < 256 :=
  sha256_lt _

theorem pbkdf2Go_length (password : List Nat) :
    ∀ (n : Nat) (u acc : List Nat), acc.length = 32 →
      (pbkdf2Go password n u acc).length = 32 := by
  intro n
  induction n with
  | zero => intro u acc h; simpa [pbkdf2Go] using h
  | succ m ih =>
    intro u acc h
    simp only [pbkdf2Go]
    exact ih _ _ (by simp [xorBytes, h, hmac_sha256_length])

theorem saltedPassword_length (password salt : List Nat) (iterations : Nat) :
    (saltedPassword password salt iterations).length = 32 :=
  pbkdf2Go_length _ _ _ _ (hmac_sha256_length _ _)

theorem pbkdf2_hmac_eq_some (password salt : List Nat) {iterations : Nat}
    (h : iterations ≠ 0) :
    pbkdf2_hmac password salt iterations =
      some (saltedPassword password salt iterations) := by
  simp [pbkdf2_hmac, saltedPassword, h]

theorem token_bytes_length (n : Nat) (rng : Nat → Nat) :
    (token_bytes n rng).length = n := by
  simp [token_bytes]

theorem token_bytes_lt (n : Nat) (rng : Nat → Nat) :
    ∀ b ∈ token_bytes n rng, b < 256 := by
  intro b hb
  simp only [token_bytes, List.mem_map] at hb
  obtain ⟨i, _, rfl⟩ := hb
  exact Nat.mod_lt _ (by norm_num)

/-! ## Base64 correctness -/

theorem b64Char_mem (i : Nat) : b64Char i ∈ b64Table := by
  by_cases h : i < b64Table.length
  · rw [b64Char, b64Table.getD_eq_getElem _ h]
    exact List.getElem_mem h
  · rw [b64Char, List.getD_eq_default _ _ (by omega)]
    decide

theorem isB64Char_b64Char (i : Nat) : isB64Char (b64Char i) = true := by
  simp [isB64Char, b64Char_mem]

theorem b64Char_ne_pad (i : Nat) : b64Char i ≠ '=' := by
  intro h
  have := b64Char_mem i
  rw [h] at this
  revert this
  decide

theorem b64Val_b64Char : ∀ i, i < 64 → b64Val (b64Char i) = i := by decide

theorem validB64_b64encode : ∀ bs : List Nat, validB64 (b64encode bs) = true
  | [] => rfl
  | [b1] => by
    simp [b64encode, validB64, isB64Char_b64Char]
  | [b1, b2] => by
    simp [b64encode, validB64, isB64Char_b64Char]
  | b1 :: b2 :: b3 :: rest => by
    have ih := validB64_b64encode rest
    simp [b64encode, validB64, isB64Char_b64Char, ih]

theorem b64decode_b64encode : ∀ bs : List Nat, (∀ b ∈ bs, b < 256) →
    b64decode (b64encode bs) = bs
  | [], _ => rfl
  | [b1], h => by
    have hb1 : b1 < 256 := h b1 (by simp)
    have e1 : b64Val (b64Char (b1 / 4)) = b1 / 4 := b64Val_b64Char _ (by omega)
    have e2 : b64Val (b64Char (b1 % 4 * 16)) = b1 % 4 * 16 := b64Val_b64Char _ (by omega)
    simp [b64encode, b64decode, e1, e2]
    omega
  | [b1, b2], h => by
    have hb1 : b1 < 256 := h b1 (by simp)
    have hb2 : b2 < 256 := h b2 (by simp)
    have e1 : b64Val (b64Char (b1 / 4)) = b1 / 4 := b64Val_b64Char _ (by omega)
    have e2 : b64Val (b64Char (b1 % 4 * 16 + b2 / 16)) = b1 % 4 * 16 + b2 / 16 :=
      b64Val_b64Char _ (by omega)
    have e3 : b64Val (b64Char (b2 % 16 * 4)) = b2 % 16 * 4 := b64Val_b64Char _ (by omega)
    simp [b64encode, b64decode, e1, e2, e3, b64Char_ne_pad]
    omega
  | b1 :: b2 :: b3 :: rest, h => by
    have hb1 : b1 < 256 := h b1 (by simp)
    have hb2 : b2 < 256 := h b2 (by simp)
    have hb3 : b3 < 256 := h b3 (by simp)
    have ih := b64decode_b64encode rest fun b hb => h b (by simp [hb])
    have e1 : b64Val (b64Char (b1 / 4)) = b1 / 4 := b64Val_b64Char _ (by omega)
    have e2 : b64Val (b64Char (b1 % 4 * 16 + b2 / 16)) = b1 % 4 * 16 + b2 / 16 :=
      b64Val_b64Char _ (by omega)
    have e3 : b64Val (b64Char (b2 % 16 * 4 + b3 / 64)) = b2 % 16 * 4 + b3 / 64 :=
      b64Val_b64Char _ (by omega)
    have e4 : b64Val (b64Char (b3 % 64)) = b3 % 64 := b64Val_b64Char _ (by omega)
    simp [b64encode, b64decode, e1, e2, e3, e4, b64Char_ne_pad, ih]
    omega

/-! ## Decimal rendering facts -/

theorem natDecimalGo_length (n : Nat) :
    ∀ acc : List Char, acc.length ≤ (natDecimalGo n acc).length := by
  induction n using Nat.strong_induction_on with
  | _ n ih =>
    intro acc
    match n with
    | 0 => simp [natDecimalGo]
    | m + 1 =>
      rw [natDecimalGo]
      have hlt : (m + 1) / 10 < m + 1 := Nat.div_lt_self (Nat.succ_pos m) (by omega)
      calc acc.length ≤ (Char.ofNat (48 + (m + 1) % 10) :: acc).length := by simp
        _ ≤ _ := ih _ hlt _

theorem natDecimal_ne_nil (n : Nat) : natDecimal n ≠ [] := by
  rw [natDecimal]
  by_cases h : n = 0
  · simp [h]
  · rw [if_neg h]
    intro hc
    match n, h with
    | m + 1, _ =>
      have := natDecimalGo_length (m + 1) []
      rw [hc] at this
      rw [natDecimalGo] at hc
      have h2 := natDecimalGo_length ((m + 1) / 10) [Char.ofNat (48 + (m + 1) % 10)]
      rw [hc] at h2
      simp at h2

theorem digitChar_isDigit (d : Nat) (hd : d < 10) :
    (Char.ofNat (48 + d)).isDigit = true := by
  interval_cases d <;> decide

theorem natDecimalGo_digits (n : Nat) :
    ∀ acc : List Char, (∀ c ∈ acc, c.isDigit = true) →
      ∀ c ∈ natDecimalGo n acc, c.isDigit = true := by
  induction n using Nat.strong_induction_on with
  | _ n ih =>
    intro acc hacc c hc
    match n with
    | 0 =>
      rw [natDecimalGo] at hc
      exact hacc c hc
    | m + 1 =>
      rw [natDecimalGo] at hc
      have hlt : (m + 1) / 10 < m + 1 := Nat.div_lt_self (Nat.succ_pos m) (by omega)
      refine ih _ hlt _ ?_ c hc
      intro x hx
      rcases List.mem_cons.mp hx with rfl | hx
      · exact digitChar_isDigit _ (Nat.mod_lt _ (by norm_num))
      · exact hacc x hx

theorem natDecimal_digits (n : Nat) : ∀ c ∈ natDecimal n, c.isDigit = true := by
  rw [natDecimal]
  by_cases h : n = 0
  · simp [h]
  · rw [if_neg h]
    exact natDecimalGo_digits n [] (by simp)

/-! ## The derivation pipeline, reduced -/

theorem generate_eq (p : List Char) (so : Option (List Nat)) (iters : Nat)
    (rng : Nat → Nat) (h : iters ≠ 0) :
    generate_scram_sha256_hash p so iters rng =
      some (scramFormat iters (b64encode (saltBytesOf so rng))
        (b64encode (storedKeyOf p so iters rng))
        (b64encode (serverKeyOf p so iters rng))) := by
  cases so <;>
    simp [generate_scram_sha256_hash, saltBytesOf, storedKeyOf, serverKeyOf,
      pbkdf2_hmac_eq_some _ _ h, saltedPassword]

theorem wellFormedScram_scramFormat (i : Nat) (s1 s2 s3 : List Char)
    (h1 : validB64 s1 = true) (h2 : validB64 s2 = true) (h3 : validB64 s3 = true) :
    wellFormedScram (scramFormat i s1 s2 s3) :=
  ⟨natDecimal i, s1, s2, s3, rfl, natDecimal_ne_nil i, natDecimal_digits i, h1, h2, h3⟩

theorem scramFormat_ne_nil (i : Nat) (s1 s2 s3 : List Char) :
    scramFormat i s1 s2 s3 ≠ [] := by
  intro hc
  have := congrArg List.length hc
  simp [scramFormat] at this

/-! ## The claims -/

/-- C1: for every password, every 16-byte salt and every positive iteration
count, the returned string matches
`SCRAM-SHA-256$<digits>:<base64>$<base64>:<base64>` exactly: the literal
prefix, a dollar sign, the decimal iteration count, a colon, the base64
salt, a dollar sign, the base64 stored key, a colon, the base64 server key,
and nothing else. -/
theorem claim_C1 (p : List Char) (salt : List Nat) (iters : Nat) (rng : Nat → Nat)
    (hi : 1 ≤ iters) (hs : salt.length = 16) :
    ∃ out, generate_scram_sha256_hash p (some salt) iters rng = some out ∧
      wellFormedScram out :=
  ⟨_, generate_eq p (some salt) iters rng (by omega),
    wellFormedScram_scramFormat _ _ _ _ (validB64_b64encode _) (validB64_b64encode _)
      (validB64_b64encode _)⟩

theorem claim_C1_witness :
    1 ≤ 1 ∧ (List.replicate 16 0).length = 16 ∧
    ∃ out, generate_scram_sha256_hash [] (some (List.replicate 16 0)) 1 (fun _ => 0) =
        some out ∧ wellFormedScram out :=
  ⟨Nat.le_refl 1, by simp,
    claim_C1 [] (List.replicate 16 0) 1 (fun _ => 0) (Nat.le_refl 1) (by simp)⟩

/-- C2: with a supplied salt the derivation is deterministic — the result
does not depend on the entropy stream, so two calls with identical
`(password, salt, iterations)` yield identical output strings. -/
theorem claim_C2 (p : List Char) (salt : List Nat) (iters : Nat) (r1 r2 : Nat → Nat)
    (hi : 1 ≤ iters) :
    generate_scram_sha256_hash p (some salt) iters r1 =
      generate_scram_sha256_hash p (some salt) iters r2 := rfl

theorem claim_C2_witness :
    1 ≤ 1 ∧
    generate_scram_sha256_hash [] (some [0]) 1 (fun _ => 0) =
      generate_scram_sha256_hash [] (some [0]) 1 (fun i => i + 1) :=
  ⟨Nat.le_refl 1, claim_C2 [] [0] 1 (fun _ => 0) (fun i => i + 1) (Nat.le_refl 1)⟩

/-- C3: the stored key placed in the output is the plain SHA-256 digest (not
an HMAC) of the client key, which is derived from the PBKDF2-HMAC-SHA256
salted password of the UTF-8 password bytes with the given salt and
iteration count; the salted password is 32 bytes. -/
theorem claim_C3 (p : List Char) (salt : List Nat) (iters : Nat) (rng : Nat → Nat)
    (hi : 1 ≤ iters) :
    ∃ sp, pbkdf2_hmac (utf8Encode p) salt iters = some sp ∧ sp.length = 32 ∧
      generate_scram_sha256_hash p (some salt) iters rng =
        some (scramFormat iters (b64encode salt)
          (b64encode (sha256 (hmac_sha256 sp (asciiBytes ("Client Key")))))
          (b64encode (hmac_sha256 sp (asciiBytes ("Server Key"))))) :=
  ⟨saltedPassword (utf8Encode p) salt iters,
    pbkdf2_hmac_eq_some _ _ (by omega), saltedPassword_length _ _ _,
    generate_eq p (some salt) iters rng (by omega)⟩

theorem claim_C3_witness :
    1 ≤ 1 ∧
    ∃ sp, pbkdf2_hmac (utf8Encode []) [] 1 = some sp ∧ sp.length = 32 ∧
      generate_scram_sha256_hash [] (some []) 1 (fun _ => 0) =
        some (scramFormat 1 (b64encode [])
          (b64encode (sha256 (hmac_sha256 sp (asciiBytes ("Client Key")))))
          (b64encode (hmac_sha256 sp (asciiBytes ("Server Key"))))) :=
  ⟨Nat.le_refl 1, claim_C3 [] [] 1 (fun _ => 0) (Nat.le_refl 1)⟩

/-- C4 (counterexample): the fixed HMAC messages are the ASCII bytes of
`"Client Key"` and `"Server Key"`, which are 10 bytes each, not 8 as the
claim states. -/
theorem claim_C4_counterexample :
    (asciiBytes ("Client Key")).length = 10 ∧
    (asciiBytes ("Server Key")).length = 10 ∧
    ¬ ((asciiBytes ("Client Key")).length = 8 ∧
       (asciiBytes ("Server Key")).length = 8) := by
  refine ⟨rfl, rfl, ?_⟩
  intro hc
  exact absurd hc.1 (by decide)

/-- C4 (amended): the client key is HMAC-SHA-256 keyed by the salted
password over the fixed case-sensitive message `"Client Key"` — 10 ASCII
bytes — and the server key is HMAC-SHA-256 keyed by the salted password
over the fixed message `"Server Key"`, also 10 ASCII bytes. -/
theorem claim_C4 (p : List Char) (salt : List Nat) (iters : Nat) (rng : Nat → Nat)
    (hi : 1 ≤ iters) :
    ∃ sp, pbkdf2_hmac (utf8Encode p) salt iters = some sp ∧
      generate_scram_sha256_hash p (some salt) iters rng =
        some (scramFormat iters (b64encode salt)
          (b64encode (sha256 (hmac_sha256 sp (asciiBytes ("Client Key")))))
          (b64encode (hmac_sha256 sp (asciiBytes ("Server Key"))))) ∧
      (asciiBytes ("Client Key")).length = 10 ∧
      (asciiBytes ("Server Key")).length = 10 ∧
      (∀ b ∈ asciiBytes ("Client Key"), b < 128) ∧
      (∀ b ∈ asciiBytes ("Server Key"), b < 128) :=
  ⟨saltedPassword (utf8Encode p) salt iters,
    pbkdf2_hmac_eq_some _ _ (by omega),
    generate_eq p (some salt) iters rng (by omega),
    rfl, rfl, by decide, by decide⟩

theorem claim_C4_witness :
    1 ≤ 1 ∧
    ∃ sp, pbkdf2_hmac (utf8Encode []) [] 1 = some sp ∧
      generate_scram_sha256_hash [] (some []) 1 (fun _ => 0) =
        some (scramFormat 1 (b64encode [])
          (b64encode (sha256 (hmac_sha256 sp (asciiBytes ("Client Key")))))
          (b64encode (hmac_sha256 sp (asciiBytes ("Server Key"))))) ∧
      (asciiBytes ("Client Key")).length = 10 ∧
      (asciiBytes ("Server Key")).length = 10 ∧
      (∀ b ∈ asciiBytes ("Client Key"), b < 128) ∧
      (∀ b ∈ asciiBytes ("Server Key"), b < 128) :=
  ⟨Nat.le_refl 1, claim_C4 [] [] 1 (fun _ => 0) (Nat.le_refl 1)⟩

/-- C5: with a 16-byte salt (supplied or drawn from the entropy stream),
base64-decoding the salt, stored-key and server-key segments of the output
recovers exactly the encoded bytes, of lengths 16, 32 and 32. -/
theorem claim_C5 (p : List Char) (so : Option (List Nat)) (iters : Nat)
    (rng : Nat → Nat) (hi : 1 ≤ iters)
    (hs : ∀ s, so = some s → s.length = 16 ∧ ∀ b ∈ s, b < 256) :
    generate_scram_sha256_hash p so iters rng =
      some (scramFormat iters (b64encode (saltBytesOf so rng))
        (b64encode (storedKeyOf p so iters rng))
        (b64encode (serverKeyOf p so iters rng))) ∧
    b64decode (b64encode (saltBytesOf so rng)) = saltBytesOf so rng ∧
    (saltBytesOf so rng).length = 16 ∧
    b64decode (b64encode (storedKeyOf p so iters rng)) = storedKeyOf p so iters rng ∧
    (storedKeyOf p so iters rng).length = 32 ∧
    b64decode (b64encode (serverKeyOf p so iters rng)) = serverKeyOf p so iters rng ∧
    (serverKeyOf p so iters rng).length = 32 := by
  have hsalt : (∀ b ∈ saltBytesOf so rng, b < 256) ∧ (saltBytesOf so rng).length = 16 := by
    cases so with
    | none => exact ⟨token_bytes_lt _ _, token_bytes_length _ _⟩
    | some s => exact ⟨(hs s rfl).2, (hs s rfl).1⟩
  refine ⟨generate_eq p so iters rng (by omega),
    b64decode_b64encode _ hsalt.1, hsalt.2,
    b64decode_b64encode _ (sha256_lt _), sha256_length _,
    b64decode_b64encode _ (hmac_sha256_lt _ _), hmac_sha256_length _ _⟩

theorem claim_C5_witness :
    1 ≤ 1 ∧
    (∀ s, (none : Option (List Nat)) = some s → s.length = 16 ∧ ∀ b ∈ s, b < 256) ∧
    (generate_scram_sha256_hash [] none 1 (fun _ => 0) =
      some (scramFormat 1 (b64encode (saltBytesOf none (fun _ => 0)))
        (b64encode (storedKeyOf [] none 1 (fun _ => 0)))
        (b64encode (serverKeyOf [] none 1 (fun _ => 0)))) ∧
    b64decode (b64encode (saltBytesOf none (fun _ => 0))) = saltBytesOf none (fun _ => 0) ∧
    (saltBytesOf none (fun _ => 0)).length = 16 ∧
    b64decode (b64encode (storedKeyOf [] none 1 (fun _ => 0))) =
      storedKeyOf [] none 1 (fun _ => 0) ∧
    (storedKeyOf [] none 1 (fun _ => 0)).length = 32 ∧
    b64decode (b64encode (serverKeyOf [] none 1 (fun _ => 0))) =
      serverKeyOf [] none 1 (fun _ => 0) ∧
    (serverKeyOf [] none 1 (fun _ => 0)).length = 32) :=
  ⟨Nat.le_refl 1, fun s hc => by exact absurd hc (by simp),
    claim_C5 [] none 1 (fun _ => 0) (Nat.le_refl 1) (fun s hc => by exact absurd hc (by simp))⟩

/-- C6: when the salt argument is omitted, exactly 16 bytes are drawn from
the entropy source; the call then behaves exactly as if that 16-byte salt
had been supplied, and the salt segment of the output base64-decodes to the
drawn bytes. -/
theorem claim_C6 (p : List Char) (iters : Nat) (rng : Nat → Nat) (hi : 1 ≤ iters) :
    (token_bytes 16 rng).length = 16 ∧
    generate_scram_sha256_hash p none iters rng =
      generate_scram_sha256_hash p (some (token_bytes 16 rng)) iters rng ∧
    generate_scram_sha256_hash p none iters rng =
      some (scramFormat iters (b64encode (token_bytes 16 rng))
        (b64encode (storedKeyOf p none iters rng))
        (b64encode (serverKeyOf p none iters rng))) ∧
    b64decode (b64encode (token_bytes 16 rng)) = token_bytes 16 rng :=
  ⟨token_bytes_length _ _, rfl, generate_eq p none iters rng (by omega),
    b64decode_b64encode _ (token_bytes_lt _ _)⟩

theorem claim_C6_witness :
    1 ≤ 1 ∧
    (token_bytes 16 (fun i => i)).length = 16 ∧
    generate_scram_sha256_hash [] none 1 (fun i => i) =
      generate_scram_sha256_hash [] (some (token_bytes 16 (fun i => i))) 1 (fun i => i) ∧
    generate_scram_sha256_hash [] none 1 (fun i => i) =
      some (scramFormat 1 (b64encode (token_bytes 16 (fun i => i)))
        (b64encode (storedKeyOf [] none 1 (fun i => i)))
        (b64encode (serverKeyOf [] none 1 (fun i => i)))) ∧
    b64decode (b64encode (token_bytes 16 (fun i => i))) = token_bytes 16 (fun i => i) :=
  ⟨Nat.le_refl 1, claim_C6 [] 1 (fun i => i) (Nat.le_refl 1)⟩

/-- C7: for every well-formed input — any password including the empty one,
salt omitted or 16 bytes, any positive iteration count including 1 — the
function returns a non-empty, correctly shaped string and takes no error
path. -/
theorem claim_C7 (p : List Char) (so : Option (List Nat)) (iters : Nat)
    (rng : Nat → Nat) (hi : 1 ≤ iters) (hs : ∀ s, so = some s → s.length = 16) :
    ∃ out, generate_scram_sha256_hash p so iters rng = some out ∧ out ≠ [] ∧
      wellFormedScram out :=
  ⟨_, generate_eq p so iters rng (by omega), scramFormat_ne_nil _ _ _ _,
    wellFormedScram_scramFormat _ _ _ _ (validB64_b64encode _) (validB64_b64encode _)
      (validB64_b64encode _)⟩

theorem claim_C7_witness :
    1 ≤ 1 ∧
    (∀ s, (none : Option (List Nat)) = some s → s.length = 16) ∧
    ∃ out, generate_scram_sha256_hash [] none 1 (fun _ => 0) = some out ∧ out ≠ [] ∧
      wellFormedScram out :=
  ⟨Nat.le_refl 1, fun s hc => by exact absurd hc (by simp),
    claim_C7 [] none 1 (fun _ => 0) (Nat.le_refl 1) (fun s hc => by exact absurd hc (by simp))⟩

/-- C10 (implicit): no salt-length check exists — a supplied salt of any
length, the empty sequence included, is accepted without error and the salt
segment of the output base64-decodes to exactly the supplied bytes. -/
theorem claim_C10 (p : List Char) (salt : List Nat) (iters : Nat) (rng : Nat → Nat)
    (hi : 1 ≤ iters) (hb : ∀ b ∈ salt, b < 256) :
    generate_scram_sha256_hash p (some salt) iters rng =
      some (scramFormat iters (b64encode salt)
        (b64encode (storedKeyOf p (some salt) iters rng))
        (b64encode (serverKeyOf p (some salt) iters rng))) ∧
    b64decode (b64encode salt) = salt :=
  ⟨generate_eq p (some salt) iters rng (by omega), b64decode_b64encode _ hb⟩

theorem claim_C10_witness :
    1 ≤ 1 ∧ (∀ b ∈ [7, 8, 9], b < 256) ∧ [7, 8, 9].length ≠ 16 ∧
    (generate_scram_sha256_hash [] (some [7, 8, 9]) 1 (fun _ => 0) =
      some (scramFormat 1 (b64encode [7, 8, 9])
        (b64encode (storedKeyOf [] (some [7, 8, 9]) 1 (fun _ => 0)))
        (b64encode (serverKeyOf [] (some [7, 8, 9]) 1 (fun _ => 0)))) ∧
    b64decode (b64encode [7, 8, 9]) = [7, 8, 9]) :=
  ⟨Nat.le_refl 1, by decide, by decide,
    claim_C10 [] [7, 8, 9] 1 (fun _ => 0) (Nat.le_refl 1) (by decide)⟩

/-- The full credential string a successful derivation produces. -/
def scramOf (p : List Char) (so : Option (List Nat)) (iters : Nat) (rng : Nat → Nat) :
    List Char :=
  scramFormat iters (b64encode (saltBytesOf so rng)) (b64encode (storedKeyOf p so iters rng))
    (b64encode (serverKeyOf p so iters rng))

theorem generate_eq_scramOf (p : List Char) (so : Option (List Nat)) (iters : Nat)
    (rng : Nat → Nat) (h : iters ≠ 0) :
    generate_scram_sha256_hash p so iters rng = some (scramOf p so iters rng) :=
  generate_eq p so iters rng h

theorem credLine_eq (u pw : String) (r : Nat → Nat) :
    credLine u pw r =
      some (['\"'] ++ u.toList ++ ['\"', ' ', '\"'] ++
        scramOf pw.toList none 4096 r ++ ['\"']) := by
  rw [credLine, generate_eq_scramOf _ _ _ _ (by omega)]
  rfl

/-- C8: for every entry of the hardcoded user table, `main` prints exactly
one credential line consisting of the double-quoted username, a single
space, and the double-quoted SCRAM-SHA-256 hash string returned by
`generate_scram_sha256_hash`. -/
theorem claim_C8 (draws : Nat → Nat → Nat) :
    (mainCredLines draws).length = users.length ∧
    ∀ k, k < users.length →
      generate_scram_sha256_hash (users.getD k ("", "")).2.toList none 4096 (draws k) =
        some (scramOf (users.getD k ("", "")).2.toList none 4096 (draws k)) ∧
      (mainCredLines draws).getD k none =
        some (['\"'] ++ (users.getD k ("", "")).1.toList ++ ['\"', ' ', '\"'] ++
          scramOf (users.getD k ("", "")).2.toList none 4096 (draws k) ++ ['\"']) := by
  refine ⟨rfl, ?_⟩
  intro k hk
  have hk4 : k < 4 := hk
  interval_cases k <;>
    exact ⟨generate_eq_scramOf _ _ _ _ (by omega), credLine_eq _ _ _⟩

theorem claim_C8_witness :
    (mainCredLines (fun _ _ => 0)).length = users.length ∧
    (0 < users.length ∧
      (generate_scram_sha256_hash (users.getD 0 ("", "")).2.toList none 4096
          ((fun _ _ => 0) 0) =
        some (scramOf (users.getD 0 ("", "")).2.toList none 4096 ((fun _ _ => 0) 0)) ∧
      (mainCredLines (fun _ _ => 0)).getD 0 none =
        some (['\"'] ++ (users.getD 0 ("", "")).1.toList ++ ['\"', ' ', '\"'] ++
          scramOf (users.getD 0 ("", "")).2.toList none 4096 ((fun _ _ => 0) 0) ++ ['\"']))) :=
  ⟨(claim_C8 (fun _ _ => 0)).1, by decide, (claim_C8 (fun _ _ => 0)).2 0 (by decide)⟩
